import Mathlib

/-!
Verification of `enum.py` (yapyenum): an enumerated-type facility.

A class derived from `Enumeration` sets `_enum_` to a list of names; the
metaclass `__MetaEnumeration.__init__` then creates one `_EnumerationValue`
per name (an `int` subclass carrying `name` and the owning type's display
name), binds each as a class attribute, stores them in `cls._values`, and
creates the single shared instance `cls.instance`.  `Enumeration.__new__`
returns that instance on every later construction.  Membership tests
dispatch on the probe's type (string vs integer), and `Enumeration.name`
is plain Python list indexing into `cls._enum_`.
-/

namespace Yapyenum

/-- An `_EnumerationValue`: an `int` subclass whose numeric value is the
member's index, carrying the member's `name` and the owning type's display
name (the `_enum` slot in the source). -/
structure EnumerationValue where
  value : Nat
  name : String
  enumName : String
deriving DecidableEq

/-- The integer a member behaves as: `int(self)` of the `int` subclass. -/
def EnumerationValue.toInt (ev : EnumerationValue) : Int := ev.value

/-- The member-creation loop of `__MetaEnumeration.__init__`:
`for value, member_name in enumerate(cls._enum_)` building `cls._values`,
with the counter starting at `start` (the source starts it at 0). -/
def buildValues (typeName : String) : Nat → List String → List EnumerationValue
  | _, [] => []
  | start, n :: rest =>
      ⟨start, n, typeName⟩ :: buildValues typeName (start + 1) rest

/-- A declared enumeration type: its display name, the `_enum_` list of
member names as declared, the `_values` list of member objects, and the
identity of its singleton `instance` (modelled as an object id, since the
source's singleton guarantee is about object identity). -/
structure EnumerationType where
  typeName : String
  enumNames : List String
  enumValues : List EnumerationValue
  instanceId : Nat
deriving DecidableEq

/-- Type declaration (`__MetaEnumeration.__init__`): store the `_enum_`
list, build `_values` starting at index 0, and create the singleton
instance (whose fresh object id is `instId`). -/
def declareEnum (typeName : String) (enumList : List String) (instId : Nat) :
    EnumerationType :=
  { typeName := typeName
    enumNames := enumList
    enumValues := buildValues typeName 0 enumList
    instanceId := instId }

/-- The ambient allocation state: the next fresh object id.  Declaring a
type consumes one id for its singleton instance. -/
structure EnumState where
  nextObjId : Nat
deriving DecidableEq

/-- Declare a new enumeration type in the ambient state: the singleton
instance is a fresh object, distinct from every previously allocated one. -/
def declare (st : EnumState) (typeName : String) (enumList : List String) :
    EnumState × EnumerationType :=
  (⟨st.nextObjId + 1⟩, declareEnum typeName enumList st.nextObjId)

/-- `Enumeration.__new__`: when the `first_time` keyword is passed (done
once, by the metaclass) a genuinely new object is made; every ordinary
construction returns `cls.instance`. -/
def Enumeration.new (et : EnumerationType) (first_time : Bool) (freshId : Nat) :
    Nat :=
  if first_time then freshId else et.instanceId

/-- Attribute lookup of a member name on the enumeration type.  The
declaration loop runs `setattr(cls, member_name, ev)` in order, so the
class dict holds, for each name, the value bound by the last matching
iteration. -/
def Enumeration.getattr (et : EnumerationType) (attr : String) :
    Option EnumerationValue :=
  (et.enumValues.filter (fun ev => ev.name == attr)).getLast?

/-- Attribute lookup on the singleton instance: `__slots__` is forced to
`[]`, so the instance has no dict and lookup falls through to the class. -/
def Enumeration.getattrInstance (et : EnumerationType) (attr : String) :
    Option EnumerationValue :=
  Enumeration.getattr et attr

/-- A membership probe: Python dispatches on `type(name_or_value) == str`;
integers (including `_EnumerationValue`s, which are `int`s) take the other
branch. -/
inductive Probe where
  | str (s : String)
  | int (v : Int)
deriving DecidableEq

/-- `Enumeration.__contains__` on the singleton instance: a string probe is
looked up in `self._enum_`; anything else is looked up in `self._values`
by integer equality. -/
def Enumeration.containsInstance (et : EnumerationType) (p : Probe) : Bool :=
  match p with
  | Probe.str s => et.enumNames.contains s
  | Probe.int v => et.enumValues.any (fun ev => ev.toInt == v)

/-- `__MetaEnumeration.__contains__`: membership on the type delegates to
`cls.instance.__contains__`. -/
def Enumeration.containsType (et : EnumerationType) (p : Probe) : Bool :=
  Enumeration.containsInstance et p

/-- Python list indexing `l[i]`: a negative index counts from the end
(`l[-1]` is the last element); an index out of range on either side raises
`IndexError`, modelled as `none`. -/
def pyListGet {α : Type} (l : List α) (i : Int) : Option α :=
  if 0 ≤ i then l[i.toNat]?
  else if 0 ≤ (l.length : Int) + i then l[((l.length : Int) + i).toNat]?
  else none

/-- `Enumeration.name`: `return cls._enum_[value]`, plain list indexing. -/
def Enumeration.name (et : EnumerationType) (value : Int) : Option String :=
  pyListGet et.enumNames value

/-- The two `AttributeError` flavours the facility raises on writes. -/
inductive AttrError where
  | readOnly (attrName : String)
  | unknown (attrName : String)
deriving DecidableEq

/-- `_EnumerationValue.__setattr__`: unconditionally raises, for every
attribute name and every proposed value. -/
def EnumerationValue.setattr (ev : EnumerationValue) (attr : String)
    (v : Int) : Except AttrError EnumerationValue :=
  Except.error (AttrError.readOnly attr)

/-- Class-level attributes other than the members, installed by the class
body and the metaclass (`instance`, `_values`, `_enum_`, `name`). -/
def classAttrNames : List String := ["instance", "_values", "_enum_", "name"]

/-- Attribute assignment on the singleton instance: `__slots__ = []` means
the instance has no dict, so assignment to a name the class exposes raises
a read-only `AttributeError`, and assignment to any other name raises a
no-such-attribute `AttributeError`; no branch mutates anything. -/
def Enumeration.setattrInstance (et : EnumerationType) (attr : String)
    (v : Int) : Except AttrError EnumerationType :=
  if (Enumeration.getattr et attr).isSome || classAttrNames.contains attr then
    Except.error (AttrError.readOnly attr)
  else
    Except.error (AttrError.unknown attr)

/-- Attempt a write on a value object and keep the original object when the
write raises (Python exception semantics). -/
def EnumerationValue.attemptSetattr (ev : EnumerationValue) (attr : String)
    (v : Int) : EnumerationValue × Option AttrError :=
  match EnumerationValue.setattr ev attr v with
  | Except.ok ev2 => (ev2, none)
  | Except.error e => (ev, some e)

/-- Attempt a write on the singleton instance and keep the original state
when the write raises (Python exception semantics). -/
def Enumeration.attemptSetattrInstance (et : EnumerationType) (attr : String)
    (v : Int) : EnumerationType × Option AttrError :=
  match Enumeration.setattrInstance et attr v with
  | Except.ok et2 => (et2, none)
  | Except.error e => (et, some e)

/-- The doctest's example enumeration: `EnumTest` with members
`foo, bar, rab, oof`. -/
def enumTest : EnumerationType :=
  declareEnum "EnumTest" ["foo", "bar", "rab", "oof"] 0

/-! Basic facts about the member-creation loop. -/

theorem buildValues_length (tn : String) (s : Nat) (l : List String) :
    (buildValues tn s l).length = l.length := by
  induction l generalizing s with
  | nil => rfl
  | cons n rest ih => simp [buildValues, ih]

theorem buildValues_getElem? (tn : String) (s : Nat) (l : List String)
    (j : Nat) :
    (buildValues tn s l)[j]? =
      l[j]?.map (fun n => (⟨s + j, n, tn⟩ : EnumerationValue)) := by
  induction l generalizing s j with
  | nil => simp [buildValues]
  | cons n rest ih =>
    cases j with
    | zero => simp [buildValues]
    | succ j =>
      simp only [buildValues, List.getElem?_cons_succ, ih]
      have h1 : s + 1 + j = s + (j + 1) := by omega
      rw [h1]

theorem mem_buildValues {tn : String} {s : Nat} {l : List String}
    {ev : EnumerationValue} (h : ev ∈ buildValues tn s l) :
    ∃ j, j < l.length ∧ l[j]? = some ev.name ∧ ev.value = s + j ∧
      ev.enumName = tn := by
  induction l generalizing s with
  | nil => simp [buildValues] at h
  | cons n rest ih =>
    simp only [buildValues, List.mem_cons] at h
    rcases h with h | h
    · subst h
      exact ⟨0, by simp, by simp, by simp, rfl⟩
    · rcases ih h with ⟨j, hj, hname, hval, henum⟩
      refine ⟨j + 1, by simpa using Nat.succ_lt_succ hj, ?_, by omega, henum⟩
      simpa using hname

theorem buildValues_mem_of_lt {tn : String} {s : Nat} {l : List String}
    {j : Nat} (hj : j < l.length) :
    (⟨s + j, l.get ⟨j, hj⟩, tn⟩ : EnumerationValue) ∈ buildValues tn s l := by
  have h : (buildValues tn s l)[j]? =
      some (⟨s + j, l.get ⟨j, hj⟩, tn⟩ : EnumerationValue) := by
    rw [buildValues_getElem?]
    simp [List.getElem?_eq_getElem hj]
  exact List.getElem?_mem h

/-- Helper: an attempted write on the singleton instance always raises and
returns the untouched state. -/
theorem attemptSetattrInstance_eq (et : EnumerationType) (attr : String)
    (v : Int) :
    (Enumeration.attemptSetattrInstance et attr v).1 = et ∧
    (Enumeration.attemptSetattrInstance et attr v).2.isSome = true := by
  unfold Enumeration.attemptSetattrInstance Enumeration.setattrInstance
  split
  · rename_i et2 heq
    split at heq <;> cases heq
  · simp

/-- C1: the spec claims `name(i)` returns `n_i` for `0 ≤ i ≤ k` and fails
with an out-of-range error for every `i < 0` or `i > k`, matching the
method's own docstring ("Raises IndexError if value is not a member").
The code violates the negative half: `cls._enum_[value]` is Python list
indexing, which wraps negative indices, so on the doctest enumeration
`name(-1)` returns `"oof"` instead of failing, while the positive halves
behave as claimed. -/
theorem name_negative_index_returns_member :
    Enumeration.name enumTest (-1) = some "oof" ∧
    Enumeration.name enumTest 0 = some "foo" ∧
    Enumeration.name enumTest 3 = some "oof" ∧
    Enumeration.name enumTest 4 = none ∧
    Enumeration.name enumTest (-5) = none := by
  decide

/-- C3: on an enumeration declared with members `[n0, ..., nk]`, the integer
membership probe `v in et` agrees between the type and its singleton
instance, and holds exactly when `0 ≤ v < k + 1`, i.e. when `v` equals some
declared member's value. -/
theorem int_membership_iff_in_range (tn : String) (enumList : List String)
    (instId : Nat) (v : Int) :
    Enumeration.containsType (declareEnum tn enumList instId) (Probe.int v) =
      Enumeration.containsInstance (declareEnum tn enumList instId)
        (Probe.int v) ∧
    (Enumeration.containsInstance (declareEnum tn enumList instId)
        (Probe.int v) = true ↔ 0 ≤ v ∧ v < (enumList.length : Int)) := by
  refine ⟨rfl, ?_⟩
  simp only [Enumeration.containsInstance, declareEnum, List.any_eq_true]
  constructor
  · rintro ⟨ev, hmem, hv⟩
    rcases mem_buildValues hmem with ⟨j, hj, _, hval, _⟩
    have hev : ev.toInt = v := by simpa using hv
    have hvj : ev.value = j := by omega
    have : v = (j : Int) := by
      rw [← hev]
      simp [EnumerationValue.toInt, hvj]
    omega
  · rintro ⟨h0, hlt⟩
    have hj : v.toNat < enumList.length := by omega
    refine ⟨⟨0 + v.toNat, enumList.get ⟨v.toNat, hj⟩, tn⟩,
      buildValues_mem_of_lt hj, ?_⟩
    simp only [EnumerationValue.toInt, beq_iff_eq]
    omega

/-- C4: on an enumeration declared with members `[n0, ..., nk]`, the string
membership probe agrees between the type and its singleton instance, and
holds exactly when the probe is one of the declared names. -/
theorem str_membership_iff_declared (tn : String) (enumList : List String)
    (instId : Nat) (s : String) :
    Enumeration.containsType (declareEnum tn enumList instId) (Probe.str s) =
      Enumeration.containsInstance (declareEnum tn enumList instId)
        (Probe.str s) ∧
    (Enumeration.containsInstance (declareEnum tn enumList instId)
        (Probe.str s) = true ↔ s ∈ enumList) := by
  refine ⟨rfl, ?_⟩
  simp [Enumeration.containsInstance, declareEnum]

/-- C5: ordinary construction of a declared enumeration always returns the
one singleton instance created at declaration time (so constructing twice
yields the identical object), and two types declared one after the other,
even with the same member list, have distinct singleton instances. -/
theorem singleton_construction (st : EnumState) (tn1 tn2 : String)
    (enumList : List String) (f1 f2 : Nat) :
    Enumeration.new (declare st tn1 enumList).2 false f1 =
      Enumeration.new (declare st tn1 enumList).2 false f2 ∧
    Enumeration.new (declare st tn1 enumList).2 false f1 =
      (declare st tn1 enumList).2.instanceId ∧
    Enumeration.new (declare (declare st tn1 enumList).1 tn2 enumList).2
        false f1 =
      (declare (declare st tn1 enumList).1 tn2 enumList).2.instanceId ∧
    (declare st tn1 enumList).2.instanceId ≠
      (declare (declare st tn1 enumList).1 tn2 enumList).2.instanceId := by
  refine ⟨rfl, rfl, rfl, ?_⟩
  simp [declare, declareEnum]

/-- C6: every attribute assignment after declaration fails — on a value
object (for any attribute name, its `name` field included) and on the
singleton instance (for declared member names and undeclared names alike);
no assignment returns successfully. -/
theorem setattr_always_fails (ev : EnumerationValue) (et : EnumerationType)
    (attr : String) (v : Int) :
    (∃ e, EnumerationValue.setattr ev attr v = Except.error e) ∧
    (∃ e, Enumeration.setattrInstance et attr v = Except.error e) := by
  refine ⟨⟨AttrError.readOnly attr, rfl⟩, ?_⟩
  unfold Enumeration.setattrInstance
  split
  · exact ⟨AttrError.readOnly attr, rfl⟩
  · exact ⟨AttrError.unknown attr, rfl⟩

/-- C7: a rejected write is atomic: after any failed attribute assignment on
a value object or on the singleton instance, every observable piece of state
— the value object's integer value, name and owning-type name, and the
type's member-name list and value list — is exactly what it was before, and
the attempt did fail (an error was raised). -/
theorem failed_write_preserves_state (ev : EnumerationValue)
    (et : EnumerationType) (attr : String) (v : Int) :
    (EnumerationValue.attemptSetattr ev attr v).1 = ev ∧
    (EnumerationValue.attemptSetattr ev attr v).1.value = ev.value ∧
    (EnumerationValue.attemptSetattr ev attr v).1.name = ev.name ∧
    (EnumerationValue.attemptSetattr ev attr v).1.enumName = ev.enumName ∧
    (EnumerationValue.attemptSetattr ev attr v).2.isSome = true ∧
    (Enumeration.attemptSetattrInstance et attr v).1 = et ∧
    (Enumeration.attemptSetattrInstance et attr v).1.enumNames =
      et.enumNames ∧
    (Enumeration.attemptSetattrInstance et attr v).1.enumValues =
      et.enumValues ∧
    (Enumeration.attemptSetattrInstance et attr v).2.isSome = true := by
  rcases attemptSetattrInstance_eq et attr v with ⟨h1, h2⟩
  exact ⟨rfl, rfl, rfl, rfl, rfl, h1, by rw [h1], by rw [h1], h2⟩

/-- C9: declaring an enumeration with an empty name list succeeds and the
result has no members: every string probe and every integer probe is false
(on the type and on the singleton instance), and `name` fails on every
integer. -/
theorem empty_enum_has_no_members (tn : String) (instId : Nat) :
    (∀ s, Enumeration.containsType (declareEnum tn [] instId)
      (Probe.str s) = false) ∧
    (∀ v, Enumeration.containsType (declareEnum tn [] instId)
      (Probe.int v) = false) ∧
    (∀ s, Enumeration.containsInstance (declareEnum tn [] instId)
      (Probe.str s) = false) ∧
    (∀ v, Enumeration.containsInstance (declareEnum tn [] instId)
      (Probe.int v) = false) ∧
    (∀ v : Int, Enumeration.name (declareEnum tn [] instId) v = none) := by
  refine ⟨fun s => rfl, fun v => rfl, fun s => rfl, fun v => rfl,
    fun v => ?_⟩
  simp only [Enumeration.name, declareEnum, pyListGet, List.length_nil]
  split
  · simp
  · split
    · simp
    · rfl

/-- Helper: the declaration loop creates no value carrying a name that was
never declared. -/
theorem filter_buildValues_of_not_mem (tn m : String) :
    ∀ (s : Nat) (l : List String), m ∉ l →
      (buildValues tn s l).filter (fun ev => ev.name == m) = []
  | _, [], _ => rfl
  | s, n :: rest, h => by
    have hn : ¬(n = m) := fun e => h (by simp [e])
    have hrest : m ∉ rest := fun hm => h (List.mem_cons_of_mem _ hm)
    simp only [buildValues, List.filter_cons]
    rw [if_neg (by simpa using hn)]
    exact filter_buildValues_of_not_mem tn m (s + 1) rest hrest

/-- Helper: with distinct declared names, exactly one iteration of the
declaration loop binds each name, so the class attribute is the value built
at that name's position. -/
theorem filter_buildValues_nodup (tn : String) :
    ∀ (s : Nat) (l : List String), l.Nodup → ∀ (i : Nat) (hi : i < l.length),
      (buildValues tn s l).filter (fun ev => ev.name == l.get ⟨i, hi⟩) =
        [⟨s + i, l.get ⟨i, hi⟩, tn⟩]
  | _, [], _, i, hi => absurd hi (by simp)
  | s, n :: rest, hnd, 0, _ => by
    have hn : n ∉ rest := (List.nodup_cons.mp hnd).1
    simp only [buildValues, List.filter_cons, List.get]
    rw [if_pos (by simp), filter_buildValues_of_not_mem tn n (s + 1) rest hn]
    simp
  | s, n :: rest, hnd, i + 1, hi => by
    have hn : n ∉ rest := (List.nodup_cons.mp hnd).1
    have hi2 : i < rest.length := by simpa using Nat.lt_of_succ_lt_succ hi
    have hget : (n :: rest).get ⟨i + 1, hi⟩ = rest.get ⟨i, hi2⟩ := rfl
    have hne : ¬(n = rest.get ⟨i, hi2⟩) :=
      fun e => hn (e ▸ List.get_mem rest i hi2)
    simp only [buildValues, List.filter_cons, hget]
    rw [if_neg (by simpa using hne),
      filter_buildValues_nodup tn (s + 1) rest (List.nodup_cons.mp hnd).2
        i hi2]
    have : s + 1 + i = s + (i + 1) := by omega
    rw [this]

/-- C2: on an enumeration declared with distinct members `[n0, ..., nk]`,
accessing the attribute `n_i` on the type, and equally on its singleton
instance, yields the value object with integer value `i`, name `n_i`, and
the declaring type's name as owning-type name. -/
theorem member_attribute_access (tn : String) (enumList : List String)
    (instId : Nat) (hnd : enumList.Nodup) (i : Nat)
    (hi : i < enumList.length) :
    Enumeration.getattr (declareEnum tn enumList instId)
        (enumList.get ⟨i, hi⟩) =
      some ⟨i, enumList.get ⟨i, hi⟩, tn⟩ ∧
    Enumeration.getattrInstance (declareEnum tn enumList instId)
        (enumList.get ⟨i, hi⟩) =
      some ⟨i, enumList.get ⟨i, hi⟩, tn⟩ := by
  have h := filter_buildValues_nodup tn 0 enumList hnd i hi
  constructor <;>
    · simp only [Enumeration.getattrInstance, Enumeration.getattr,
        declareEnum]
      rw [h]
      simp

/-- Witness for C2 at the doctest enumeration: member `rab` is at index 2. -/
theorem member_attribute_access_witness :
    Enumeration.getattr enumTest "rab" = some ⟨2, "rab", "EnumTest"⟩ ∧
    Enumeration.getattrInstance enumTest "rab" =
      some ⟨2, "rab", "EnumTest"⟩ :=
  member_attribute_access "EnumTest" ["foo", "bar", "rab", "oof"] 0
    (by decide) 2 (by decide)

/-- C8: members are arithmetically transparent integers: the member stored
at index `i` compares equal to the plain integer `i`, and for adjacent
members, adding 1 to the integer value of `m_i` gives the integer value of
`m_{i+1}`. -/
theorem members_are_transparent_integers (tn : String)
    (enumList : List String) (instId : Nat) :
    (∀ i, i < enumList.length →
      ∃ ev, (declareEnum tn enumList instId).enumValues[i]? = some ev ∧
        ev.toInt = (i : Int)) ∧
    (∀ i, i + 1 < enumList.length →
      ∃ ev ev2,
        (declareEnum tn enumList instId).enumValues[i]? = some ev ∧
        (declareEnum tn enumList instId).enumValues[i + 1]? = some ev2 ∧
        ev.toInt + 1 = ev2.toInt) := by
  have key : ∀ i, (hi : i < enumList.length) →
      (declareEnum tn enumList instId).enumValues[i]? =
        some ⟨0 + i, enumList.get ⟨i, hi⟩, tn⟩ := by
    intro i hi
    simp only [declareEnum]
    rw [buildValues_getElem?, List.getElem?_eq_getElem hi]
    rfl
  constructor
  · intro i hi
    exact ⟨⟨0 + i, enumList.get ⟨i, hi⟩, tn⟩, key i hi, by
      simp [EnumerationValue.toInt]⟩
  · intro i hi
    have hi1 : i < enumList.length := by omega
    refine ⟨⟨0 + i, enumList.get ⟨i, hi1⟩, tn⟩,
      ⟨0 + (i + 1), enumList.get ⟨i + 1, hi⟩, tn⟩,
      key i hi1, key (i + 1) hi, ?_⟩
    simp only [EnumerationValue.toInt]
    omega

/-- Witness for C8 at the doctest enumeration: `bar` equals 1 and
`foo + 1 == bar`. -/
theorem members_are_transparent_integers_witness :
    (∃ ev, enumTest.enumValues[1]? = some ev ∧ ev.toInt = (1 : Int)) ∧
    (∃ ev ev2, enumTest.enumValues[0]? = some ev ∧
      enumTest.enumValues[1]? = some ev2 ∧ ev.toInt + 1 = ev2.toInt) :=
  ⟨(members_are_transparent_integers "EnumTest" ["foo", "bar", "rab", "oof"]
      0).1 1 (by decide),
   (members_are_transparent_integers "EnumTest" ["foo", "bar", "rab", "oof"]
      0).2 0 (by decide)⟩

/-- C10: round-trip agreement: looking up the attribute `n_i` yields a value
object whose `name` field is `n_i`, and feeding its integer value back
through `name()` returns `n_i` again — with no distinctness assumption on
the declared names. -/
theorem name_roundtrip (tn : String) (enumList : List String) (instId : Nat)
    (i : Nat) (hi : i < enumList.length) :
    ∃ ev,
      Enumeration.getattr (declareEnum tn enumList instId)
          (enumList.get ⟨i, hi⟩) = some ev ∧
      Enumeration.getattrInstance (declareEnum tn enumList instId)
          (enumList.get ⟨i, hi⟩) = some ev ∧
      ev.name = enumList.get ⟨i, hi⟩ ∧
      Enumeration.name (declareEnum tn enumList instId) ev.toInt =
        some (enumList.get ⟨i, hi⟩) := by
  set attr := enumList.get ⟨i, hi⟩ with hattr
  set fl := (buildValues tn 0 enumList).filter (fun ev => ev.name == attr)
    with hfl
  have hne : fl ≠ [] := by
    have hmem : (⟨0 + i, attr, tn⟩ : EnumerationValue) ∈ fl := by
      rw [hfl]
      exact List.mem_filter.mpr ⟨buildValues_mem_of_lt hi, by simp⟩
    exact fun h => by simp [h] at hmem
  rcases Option.isSome_iff_exists.mp (List.getLast?_isSome.mpr hne) with
    ⟨ev, hev⟩
  have hmemf : ev ∈ fl := List.mem_of_mem_getLast? hev
  rcases List.mem_filter.mp (hfl ▸ hmemf) with ⟨hmemb, hname⟩
  have hnameq : ev.name = attr := by simpa using hname
  rcases mem_buildValues hmemb with ⟨j, hj, hjname, hjval, _⟩
  refine ⟨ev, ?_, ?_, hnameq, ?_⟩
  · exact hev
  · exact hev
  · simp only [Enumeration.name, declareEnum, pyListGet,
      EnumerationValue.toInt]
    rw [if_pos (by omega)]
    have : ((ev.value : Int)).toNat = j := by omega
    rw [this, hjname, hnameq]

/-- Witness for C10 at the doctest enumeration: index 3 is `oof`. -/
theorem name_roundtrip_witness :
    ∃ ev,
      Enumeration.getattr enumTest "oof" = some ev ∧
      Enumeration.getattrInstance enumTest "oof" = some ev ∧
      ev.name = "oof" ∧
      Enumeration.name enumTest ev.toInt = some "oof" :=
  name_roundtrip "EnumTest" ["foo", "bar", "rab", "oof"] 0 3 (by decide)

end Yapyenum
